import Mathlib

/-!
# Verification of the NPS site explorer (`proj2_nps.py`)

A shallow embedding of the program's data model and operations, together
with proofs of the specification's claims about it.

The program keeps three caches (state map, per-state site lists, nearby
places), each mirrored to a JSON file on disk via `json.dumps`/`json.loads`
(`save_cache`/`open_cache`).  Network and HTML parsing are modelled by
oracles supplying the already-extracted element texts; every function
records the list of URLs it requested so that "zero network calls" is a
provable statement.

The JSON library is modelled executably: `dumpsChars` mirrors
`json.dumps` with its default `", "`/`": "` separators, and `parseJson`
is a recursive-descent reader used by `loads`.  Numbers are modelled as
integers (the caches written by this program contain only strings,
objects and arrays; floats are outside the model).  String escaping
covers the quote, backslash and common control escapes; `\uXXXX` escapes
are outside the model.
-/

/-- JSON values as stored in the cache files. -/
inductive Json where
  | null : Json
  | bool (b : Bool) : Json
  | num (n : Int) : Json
  | str (s : String) : Json
  | arr (elems : List Json) : Json
  | obj (members : List (String × Json)) : Json
deriving Repr

/-- ASCII decimal digit test (`0`..`9`). -/
def isDigitChar (c : Char) : Bool := 48 ≤ c.toNat && c.toNat ≤ 57

/-- Numeric value of an ASCII digit. -/
def digitVal (c : Char) : Nat := c.toNat - 48

/-- Decimal digits of a natural number, most significant first
(fuelled so that it is structurally recursive; `natDigits` supplies
adequate fuel). -/
def natDigitsAux : Nat → Nat → List Char
  | 0, _ => []
  | f + 1, n =>
    if n < 10 then [Nat.digitChar n]
    else natDigitsAux f (n / 10) ++ [Nat.digitChar (n % 10)]

/-- Decimal digits of a natural number, most significant first. -/
def natDigits (n : Nat) : List Char := natDigitsAux (n + 1) n

/-- Decimal rendering of an integer, as `json.dumps` prints it. -/
def intChars (n : Int) : List Char :=
  if n < 0 then '-' :: natDigits (-n).toNat else natDigits n.toNat

/-- String-body escaping performed by `json.dumps`. -/
def escapeChars : List Char → List Char
  | [] => []
  | c :: cs =>
    if c = '"' then '\\' :: '"' :: escapeChars cs
    else if c = '\\' then '\\' :: '\\' :: escapeChars cs
    else if c = '\n' then '\\' :: 'n' :: escapeChars cs
    else if c = '\t' then '\\' :: 't' :: escapeChars cs
    else if c = '\r' then '\\' :: 'r' :: escapeChars cs
    else c :: escapeChars cs

mutual
/-- Characters of `json.dumps(value)` (default separators `", "` and `": "`). -/
def dumpsChars : Json → List Char
  | .null => "null".data
  | .bool true => "true".data
  | .bool false => "false".data
  | .num n => intChars n
  | .str s => '"' :: (escapeChars s.data ++ ['"'])
  | .arr [] => ['[', ']']
  | .arr (x :: xs) => '[' :: (dumpsChars x ++ dumpsTail xs ++ [']'])
  | .obj [] => ['{', '}']
  | .obj (kv :: kvs) => '{' :: (dumpMember kv ++ dumpMembersTail kvs ++ ['}'])

/-- Remaining array elements, each preceded by the `", "` separator. -/
def dumpsTail : List Json → List Char
  | [] => []
  | x :: xs => ',' :: ' ' :: (dumpsChars x ++ dumpsTail xs)

/-- One `"key": value` member. -/
def dumpMember : String × Json → List Char
  | (k, v) => '"' :: (escapeChars k.data ++ '"' :: ':' :: ' ' :: dumpsChars v)

/-- Remaining object members, each preceded by the `", "` separator. -/
def dumpMembersTail : List (String × Json) → List Char
  | [] => []
  | kv :: kvs => ',' :: ' ' :: (dumpMember kv ++ dumpMembersTail kvs)
end

/-- `json.dumps`. -/
def dumps (j : Json) : String := String.mk (dumpsChars j)

/-- JSON insignificant whitespace. -/
def isWsChar (c : Char) : Bool := c = ' ' || c = '\n' || c = '\t' || c = '\r'

/-- Skip insignificant whitespace. -/
def skipWs : List Char → List Char
  | [] => []
  | c :: rest => if isWsChar c then skipWs rest else c :: rest

/-- Accumulating decimal reader: consume leading digits. -/
def readDigits (acc : Nat) : List Char → Nat × List Char
  | [] => (acc, [])
  | c :: rest =>
    if isDigitChar c then readDigits (10 * acc + digitVal c) rest
    else (acc, c :: rest)

/-- Inverse of one escape character. -/
def unescapeChar (c : Char) : Option Char :=
  if c = '"' then some '"'
  else if c = '\\' then some '\\'
  else if c = '/' then some '/'
  else if c = 'n' then some '\n'
  else if c = 't' then some '\t'
  else if c = 'r' then some '\r'
  else if c = 'b' then some (Char.ofNat 8)
  else if c = 'f' then some (Char.ofNat 12)
  else none

/-- Read a string body after the opening quote, up to and including the
closing quote; returns the decoded characters and the remainder. -/
def parseStringBody : List Char → Option (List Char × List Char)
  | [] => none
  | c :: rest =>
    if c = '"' then some ([], rest)
    else if c = '\\' then
      match rest with
      | [] => none
      | d :: rest2 =>
        match unescapeChar d, parseStringBody rest2 with
        | some u, some (s, r) => some (u :: s, r)
        | _, _ => none
    else
      match parseStringBody rest with
      | some (s, r) => some (c :: s, r)
      | none => none

mutual
/-- Recursive-descent JSON reader (fuelled).  Skips leading whitespace,
then dispatches on the first character. -/
def parseJson : Nat → List Char → Option (Json × List Char)
  | 0, _ => none
  | f + 1, input =>
    match skipWs input with
    | [] => none
    | c :: rest =>
      if c = '"' then
        match parseStringBody rest with
        | some (s, r) => some (.str (String.mk s), r)
        | none => none
      else if c = '[' then
        match skipWs rest with
        | ']' :: r => some (.arr [], r)
        | _ =>
          match parseJson f rest with
          | some (x, r1) =>
            match parseItemsTail f r1 with
            | some (xs, r2) => some (.arr (x :: xs), r2)
            | none => none
          | none => none
      else if c = '{' then
        match skipWs rest with
        | '}' :: r => some (.obj [], r)
        | _ =>
          match parseMember f rest with
          | some (kv, r1) =>
            match parseMembersTail f r1 with
            | some (kvs, r2) => some (.obj (kv :: kvs), r2)
            | none => none
          | none => none
      else if c = 'n' then
        match rest with
        | 'u' :: 'l' :: 'l' :: r => some (.null, r)
        | _ => none
      else if c = 't' then
        match rest with
        | 'r' :: 'u' :: 'e' :: r => some (.bool true, r)
        | _ => none
      else if c = 'f' then
        match rest with
        | 'a' :: 'l' :: 's' :: 'e' :: r => some (.bool false, r)
        | _ => none
      else if c = '-' then
        match rest with
        | d :: rest2 =>
          if isDigitChar d then
            let (m, r) := readDigits (digitVal d) rest2
            some (.num (-(m : Int)), r)
          else none
        | [] => none
      else if isDigitChar c then
        let (m, r) := readDigits (digitVal c) rest
        some (.num (m : Int), r)
      else none

/-- After one array element: `, elem ... ]` or `]`. -/
def parseItemsTail : Nat → List Char → Option (List Json × List Char)
  | 0, _ => none
  | f + 1, input =>
    match skipWs input with
    | ',' :: r1 =>
      match parseJson f r1 with
      | some (x, r2) =>
        match parseItemsTail f r2 with
        | some (xs, r3) => some (x :: xs, r3)
        | none => none
      | none => none
    | ']' :: r1 => some ([], r1)
    | _ => none

/-- One `"key": value` member. -/
def parseMember : Nat → List Char → Option ((String × Json) × List Char)
  | 0, _ => none
  | f + 1, input =>
    match skipWs input with
    | '"' :: r0 =>
      match parseStringBody r0 with
      | some (k, r1) =>
        match skipWs r1 with
        | ':' :: r2 =>
          match parseJson f r2 with
          | some (v, r3) => some ((String.mk k, v), r3)
          | none => none
        | _ => none
      | none => none
    | _ => none

/-- After one object member: `, member ... }` or `}`. -/
def parseMembersTail : Nat → List Char → Option (List (String × Json) × List Char)
  | 0, _ => none
  | f + 1, input =>
    match skipWs input with
    | ',' :: r1 =>
      match parseMember f r1 with
      | some (kv, r2) =>
        match parseMembersTail f r2 with
        | some (kvs, r3) => some (kv :: kvs, r3)
        | none => none
      | none => none
    | '}' :: r1 => some ([], r1)
    | _ => none
end

/-- `json.loads`: decode a whole document (trailing whitespace allowed,
anything else after the value is an error). -/
def loads (s : String) : Option Json :=
  match parseJson (2 * s.data.length + 2) s.data with
  | some (j, r) => if skipWs r = [] then some j else none
  | none => none

/-! ## Filesystem and cache store (`open_cache` / `save_cache`) -/

/-- The on-disk state: an association of file names to file contents.
`none` lookup = the file does not exist. -/
abbrev FS := List (String × String)

/-- First-match association-list lookup (Python `dict` access). -/
def assocLookup {α : Type} : List (String × α) → String → Option α
  | [], _ => none
  | (k, v) :: rest, key => if k = key then some v else assocLookup rest key

/-- Python `dict` assignment `d[k] = v`: replace the value in place when
the key is present, otherwise append the new pair at the end (insertion
order preserved, as in Python 3.7+). -/
def assocInsert {α : Type} : List (String × α) → String → α → List (String × α)
  | [], key, v => [(key, v)]
  | (k, w) :: rest, key, v =>
    if k = key then (k, v) :: rest else (k, w) :: assocInsert rest key v

/-- Read a file. -/
def readFS (fs : FS) (name : String) : Option String := assocLookup fs name

/-- Overwrite (or create) a file. -/
def writeFS (fs : FS) (name : String) (content : String) : FS :=
  assocInsert fs name content

def STATE_CACHE_FILENAME : String := "state_cache.json"
def PARK_CACHE_FILENAME : String := "park_cache.json"
def NEAR_CACHE_FILENAME : String := "near_cache.json"

/-- `open_cache`: read the file and JSON-decode it; the bare `except:`
turns any failure (missing file, malformed JSON) into an empty dict. -/
def open_cache (fs : FS) (cache_filename : String) : Json :=
  match readFS fs cache_filename with
  | none => Json.obj []
  | some contents =>
    match loads contents with
    | some j => j
    | none => Json.obj []

/-- `save_cache`: serialize the dict and overwrite the file. -/
def save_cache (cache_dict : Json) (filename : String) (fs : FS) : FS :=
  writeFS fs filename (dumps cache_dict)

/-! ## The `NationalSite` record -/

/-- A national site record: five plain string fields. -/
structure NationalSite where
  category : String
  name : String
  address : String
  zipcode : String
  phone : String
deriving Repr, DecidableEq

/-- `NationalSite.info`: `"{} ({}): {} {}".format(name, category, address,
zipcode)` — the display string, also the nearby-places cache key.  The
phone field does not appear in it. -/
def NationalSite.info (s : NationalSite) : String :=
  s.name ++ " (" ++ s.category ++ "): " ++ s.address ++ " " ++ s.zipcode

/-- The `__dict__` of a `NationalSite`, as `json.dumps` serializes it:
field mapping in attribute-assignment order. -/
def NationalSite.toDict (s : NationalSite) : Json :=
  Json.obj [("category", .str s.category), ("name", .str s.name),
    ("address", .str s.address), ("zipcode", .str s.zipcode),
    ("phone", .str s.phone)]

/-! ## Site detail parsing (`get_site_instance`) -/

/-- Python `str.strip` whitespace set (ASCII part). -/
def isPySpace (c : Char) : Bool :=
  c = ' ' || c = '\t' || c = '\n' || c = '\r' || c = '\x0b' || c = '\x0c'

/-- Python `s[1:]`: drop exactly the first character (code point). -/
def pyTail (s : String) : String := String.mk (s.data.drop 1)

/-- Python `s.strip()`: remove leading and trailing whitespace. -/
def pyStrip (s : String) : String :=
  String.mk (((s.data.dropWhile isPySpace).reverse.dropWhile isPySpace).reverse)

/-- Python `s.lower()` (ASCII case). -/
def pyLower (s : String) : String := String.mk (s.data.map Char.toLower)

/-- The element texts `get_site_instance` extracts from one site-detail
page (`Hero-title`, `Hero-designation`, `addressLocality`,
`addressRegion`, `postalCode`, `telephone`).  The HTML fetching and
soup selection are the oracle; the claims are about the string
processing that follows. -/
structure SitePage where
  heroTitle : String
  heroDesignation : String
  addressLocality : String
  addressRegion : String
  postalCode : String
  telephone : String

/-- `get_site_instance`, after the soup lookups: builds the record,
joining city and region with `", "`, stripping the postal code, and
dropping exactly the first character of the telephone text. -/
def get_site_instance (page : SitePage) : NationalSite :=
  { category := page.heroDesignation
    name := page.heroTitle
    address := page.addressLocality ++ ", " ++ page.addressRegion
    zipcode := pyStrip page.postalCode
    phone := pyTail page.telephone }

/-! ## Site-list fetch (`get_sites_for_state`, `cache_to_obj`) -/

/-- Option-valued `mapM`: Python's loop that appends per element,
aborted whole by the first raised exception. -/
def mapMOpt {α β : Type} (f : α → Option β) : List α → Option (List β)
  | [] => some []
  | x :: xs =>
    match f x, mapMOpt f xs with
    | some y, some ys => some (y :: ys)
    | _, _ => none

/-- Reconstruct one `NationalSite` from a cached field mapping
(`dict["category"]`, ... — a missing key raises, modelled as `none`).
Cache entries written by this program always carry the five string
fields. -/
def siteFromDict (d : Json) : Option NationalSite :=
  match d with
  | Json.obj kvs =>
    match assocLookup kvs "category", assocLookup kvs "name",
        assocLookup kvs "address", assocLookup kvs "zipcode",
        assocLookup kvs "phone" with
    | some (.str c), some (.str n), some (.str a), some (.str z),
        some (.str p) => some ⟨c, n, a, z, p⟩
    | _, _, _, _, _ => none
  | _ => none

/-- `cache_to_obj`: turn the cached list of field mappings back into
`NationalSite` objects. -/
def cache_to_obj (dict_ls : List Json) : Option (List NationalSite) :=
  mapMOpt siteFromDict dict_ls

/-- The network/HTML oracle: `stateListItems url` is the list of `href`
attributes of all `li.clearfix h3 a` entries on the state page at
`url`; `sitePage url` is the parsed site-detail page at `url`. -/
structure Network where
  stateListItems : String → List String
  sitePage : String → SitePage

/-- In-memory `PARK_CACHE_DICT`: state URL ↦ list of cached site field
mappings. -/
abbrev ParkCache := List (String × List Json)

/-- The park cache as the JSON document `save_cache` writes. -/
def parkCacheToJson (c : ParkCache) : Json :=
  Json.obj (c.map fun kv => (kv.1, Json.arr kv.2))

/-- Result of `get_sites_for_state`: the returned list (`none` = an
uncaught exception in `cache_to_obj`), the updated cache, the updated
disk, and the URLs requested over the network, in order. -/
structure SitesResult where
  sites : Option (List NationalSite)
  parkCache : ParkCache
  fs : FS
  requests : List String
deriving Repr

/-- `get_sites_for_state`: on a cache hit, deserialize the cached entry
with `cache_to_obj` and perform no network access; on a miss, fetch the
state page, take its `li.clearfix` entries minus the trailing one
(`[0:-1]`), resolve each relative link, fetch and parse every detail
page twice (once for the cache payload, once for the returned objects,
as the code does), store the payload under the state URL and persist
the cache. -/
def get_sites_for_state (cache : ParkCache) (fs : FS) (net : Network)
    (state_url : String) : SitesResult :=
  match assocLookup cache state_url with
  | some entry => ⟨cache_to_obj entry, cache, fs, []⟩
  | none =>
    let hrefs := (net.stateListItems state_url).dropLast
    let urls := hrefs.map (fun h => "https://www.nps.gov" ++ h)
    let dicts := urls.map (fun u => (get_site_instance (net.sitePage u)).toDict)
    let inss := urls.map (fun u => get_site_instance (net.sitePage u))
    let cache2 := assocInsert cache state_url dicts
    let fs2 := save_cache (parkCacheToJson cache2) PARK_CACHE_FILENAME fs
    ⟨some inss, cache2, fs2, state_url :: urls.flatMap (fun u => [u, u])⟩

/-! ## Nearby-places fetch (`get_nearby_places`) -/

/-- The MapQuest request URL, exactly as the format string builds it
(including the spaces the backslash line continuations splice in). -/
def mapquestUrl (address : String) (apiKey : String) : String :=
  "https://www.mapquestapi.com/search/v2/radius?origin =" ++ address ++
    "        &radius=10&maxMatches=10&ambiguities=ignore" ++
    "        &outFormat=json&key=" ++ apiKey

/-- Result of `get_nearby_places`. -/
structure NearbyResult where
  places : Json
  nearCache : List (String × Json)
  fs : FS
  requests : List String
deriving Repr

/-- `get_nearby_places`: cache key is `site.info()`; on a hit return the
cached JSON object with no network access; on a miss query the API,
store the decoded response under the key, persist, and return the
freshly stored entry. -/
def get_nearby_places (nearCache : List (String × Json)) (fs : FS)
    (api : String → Json) (apiKey : String) (site_object : NationalSite) :
    NearbyResult :=
  let near_key := site_object.info
  match assocLookup nearCache near_key with
  | some v => ⟨v, nearCache, fs, []⟩
  | none =>
    let url := mapquestUrl site_object.address apiKey
    let places := api url
    let cache2 := assocInsert nearCache near_key places
    let fs2 := save_cache (Json.obj cache2) NEAR_CACHE_FILENAME fs
    ⟨(assocLookup cache2 near_key).getD Json.null, cache2, fs2, [url]⟩

/-! ## State map (`build_state_url_dict`) -/

/-- `build_state_url_dict`: if the module-level state cache is nonempty
return it unchanged with no network access; otherwise fetch the index
page (one GET), and for each dropdown link `(text, href)` set
`dict[text.lower()] = "https://www.nps.gov" + href`, persist and
return.  The dropdown `(text, href)` pairs are supplied by the oracle
argument, standing for the parsed
`ul.dropdown-menu.SearchBar-keywordSearch a` elements. -/
def build_state_url_dict (stateCache : List (String × String)) (fs : FS)
    (dropdown : List (String × String)) :
    List (String × String) × FS × List String :=
  if stateCache.isEmpty then
    let d := dropdown.foldl
      (fun acc tl => assocInsert acc (pyLower tl.1) ("https://www.nps.gov" ++ tl.2))
      []
    (d, save_cache (Json.obj (d.map fun kv => (kv.1, Json.str kv.2)))
      STATE_CACHE_FILENAME fs, ["https://www.nps.gov/index.htm"])
  else (stateCache, fs, [])

/-! ## The interactive session's site-selection loop -/

/-- Python `int(str)`: optional surrounding whitespace, one optional
sign, then one or more ASCII digits; anything else raises `ValueError`
(`none`). -/
def pyInt? (s : String) : Option Int :=
  let t := ((s.data.dropWhile isPySpace).reverse.dropWhile isPySpace).reverse
  match t with
  | [] => none
  | '-' :: ds =>
    if ds ≠ [] ∧ ds.all isDigitChar then
      some (-(ds.foldl (fun a c => 10 * a + digitVal c) 0 : Nat))
    else none
  | '+' :: ds =>
    if ds ≠ [] ∧ ds.all isDigitChar then
      some ((ds.foldl (fun a c => 10 * a + digitVal c) 0 : Nat))
    else none
  | ds =>
    if ds.all isDigitChar then
      some ((ds.foldl (fun a c => 10 * a + digitVal c) 0 : Nat))
    else none

/-- Python list indexing `l[i]`: non-negative indices from the front,
negative indices from the back, `none` = `IndexError`. -/
def pyIndex {α : Type} (l : List α) (i : Int) : Option α :=
  if 0 ≤ i then l.get? i.toNat
  else if -(l.length : Int) ≤ i then l.get? (l.length - (-i).toNat)
  else none

/-- Python truthiness of a JSON-decoded value (`not x`). -/
def jFalsy : Json → Bool
  | .null => true
  | .bool false => true
  | .num 0 => true
  | .str "" => true
  | .arr [] => true
  | .obj [] => true
  | _ => false

mutual
/-- Python `str()` of a JSON-decoded value, as `"{}".format(x)` renders
it.  Scalars are exact; for containers the nested-string quoting is
approximated (no escaping inside), which the program never exercises:
the printed fields of well-formed API responses are strings. -/
def pyStr : Json → String
  | .null => "None"
  | .bool true => "True"
  | .bool false => "False"
  | .num n => String.mk (intChars n)
  | .str s => s
  | .arr xs => "[" ++ pyStrList xs ++ "]"
  | .obj kvs => "\x7b" ++ pyStrMembers kvs ++ "\x7d"

/-- `repr` of one value inside a container. -/
def pyRepr : Json → String
  | .str s => String.mk (Char.ofNat 39 :: (s.data ++ [Char.ofNat 39]))
  | .null => "None"
  | .bool true => "True"
  | .bool false => "False"
  | .num n => String.mk (intChars n)
  | .arr xs => "[" ++ pyStrList xs ++ "]"
  | .obj kvs => "\x7b" ++ pyStrMembers kvs ++ "\x7d"

/-- Comma-separated container elements. -/
def pyStrList : List Json → String
  | [] => ""
  | [x] => pyRepr x
  | x :: y :: rest => pyRepr x ++ ", " ++ pyStrList (y :: rest)

/-- Comma-separated dict members. -/
def pyStrMembers : List (String × Json) → String
  | [] => ""
  | [(k, v)] => pyRepr (.str k) ++ ": " ++ pyRepr v
  | (k, v) :: kv :: rest =>
    pyRepr (.str k) ++ ": " ++ pyRepr v ++ ", " ++ pyStrMembers (kv :: rest)
end

/-- The result-printing loop over `near_places["searchResults"]`:
for each result, read `fields` and print name/category/address/city,
substituting the `"no ..."` placeholders for falsy values.  `none` =
an uncaught `KeyError`/`TypeError` while digging into the response. -/
def printNearby (places : Json) : Option (List String) :=
  match places with
  | Json.obj kvs =>
    match assocLookup kvs "searchResults" with
    | some (Json.arr items) =>
      mapMOpt (fun r =>
        match r with
        | Json.obj rkvs =>
          match assocLookup rkvs "fields" with
          | some (Json.obj fkvs) =>
            match assocLookup fkvs "name", assocLookup fkvs "address",
                assocLookup fkvs "group_sic_code_name",
                assocLookup fkvs "city" with
            | some nameV, some addrV, some catV, some cityV =>
              some ("- " ++ (if jFalsy nameV then "no name" else pyStr nameV) ++
                " (" ++ (if jFalsy catV then "no category" else pyStr catV) ++
                "): " ++ (if jFalsy addrV then "no address" else pyStr addrV) ++
                ", " ++ (if jFalsy cityV then "no city" else pyStr cityV))
            | _, _, _, _ => none
          | _ => none
        | _ => none) items
    | _ => none
  | _ => none

/-- Where the session goes after one pass through the inner loop. -/
inductive NextPhase where
  | toSelectState : NextPhase
  | terminal : NextPhase
  | selectSiteAgain : NextPhase
  | crashed (msg : String) : NextPhase
deriving Repr, DecidableEq

/-- Observable outcome of one pass through the site-selection loop:
next phase, lines printed, nearby cache and disk afterwards, URLs
requested, and the site handed to `get_nearby_places` (if any). -/
structure StepOut where
  phase : NextPhase
  printed : List String
  nearCache : List (String × Json)
  fs : FS
  requests : List String
  fetchedSite : Option NationalSite
deriving Repr

/-- One pass through the `while True:` site-selection loop of
`__main__`, on user input `number`: `"back"` and `"exit"` first, then
`int(number)` (an unparseable string raises `ValueError`), then the
sole range check `int(number) > len(park_ls)`, then
`park_ls[int(number)-1]` (Python indexing: negative indices count from
the back, out-of-range raises `IndexError`), then the nearby fetch and
the printing loop. -/
def selectSiteStep (park_ls : List NationalSite)
    (nearCache : List (String × Json)) (fs : FS) (api : String → Json)
    (apiKey : String) (number : String) : StepOut :=
  if number = "back" then ⟨.toSelectState, [], nearCache, fs, [], none⟩
  else if number = "exit" then ⟨.terminal, [], nearCache, fs, [], none⟩
  else
    match pyInt? number with
    | none => ⟨.crashed "ValueError", [], nearCache, fs, [], none⟩
    | some n =>
      if (park_ls.length : Int) < n then
        ⟨.selectSiteAgain, ["[Error] Invalid input"], nearCache, fs, [], none⟩
      else
        match pyIndex park_ls (n - 1) with
        | none => ⟨.crashed "IndexError", [], nearCache, fs, [], none⟩
        | some site =>
          let r := get_nearby_places nearCache fs api apiKey site
          match printNearby r.places with
          | none => ⟨.crashed "KeyError", [], r.nearCache, r.fs, r.requests,
              some site⟩
          | some lines => ⟨.selectSiteAgain, lines, r.nearCache, r.fs,
              r.requests, some site⟩

/-! ## Measures and auxiliary predicates for the proofs -/

mutual
/-- Fuel measure of a JSON value: enough for `parseJson` to read it. -/
def jsize : Json → Nat
  | .null => 1
  | .bool _ => 1
  | .num _ => 1
  | .str _ => 1
  | .arr xs => 1 + lsize xs
  | .obj kvs => 1 + msize kvs

/-- Fuel measure of an array tail. -/
def lsize : List Json → Nat
  | [] => 1
  | x :: xs => 1 + jsize x + lsize xs

/-- Fuel measure of an object tail. -/
def msize : List (String × Json) → Nat
  | [] => 1
  | kv :: kvs => 1 + jsize kv.2 + msize kvs
end

/-- The remainder does not begin with a digit (so a just-read number
cannot absorb characters from it). -/
def noLeadDigit : List Char → Bool
  | [] => true
  | c :: _ => !(isDigitChar c)

/-- A `NationalSite` whose five fields are exactly the ones recorded in
the cached field mapping `d`. -/
def siteMatchesDict (s : NationalSite) (d : Json) : Prop :=
  ∃ kvs, d = Json.obj kvs ∧
    assocLookup kvs "category" = some (.str s.category) ∧
    assocLookup kvs "name" = some (.str s.name) ∧
    assocLookup kvs "address" = some (.str s.address) ∧
    assocLookup kvs "zipcode" = some (.str s.zipcode) ∧
    assocLookup kvs "phone" = some (.str s.phone)

/-! ## Concrete fixtures used by witnesses and counterexamples -/

/-- A concrete site (the spec's running example). -/
def siteIsleRoyale : NationalSite :=
  ⟨"National Park", "Isle Royale", "Houghton, MI", "49931", "(906) 482-0984"⟩

/-- A second concrete site. -/
def siteYellowstone : NationalSite :=
  ⟨"National Park", "Yellowstone", "Yellowstone National Park, WY",
    "82190-0168", "307-344-7381"⟩

/-- A one-element displayed site list. -/
def parkLsOne : List NationalSite := [siteIsleRoyale]

/-- A two-element displayed site list. -/
def parkLsTwo : List NationalSite := [siteIsleRoyale, siteYellowstone]

/-- An API oracle returning an empty but well-formed response. -/
def apiEmpty : String → Json :=
  fun _ => Json.obj [("searchResults", Json.arr [])]

/-- A network oracle that serves no site links and blank detail pages. -/
def netEmpty : Network :=
  ⟨fun _ => [], fun _ => ⟨"", "", "", "", "", ""⟩⟩

/-- The Michigan state-page URL. -/
def miUrl : String := "https://www.nps.gov/state/mi/index.htm"

/-- A park cache already holding the Michigan entry, as a first call of
`get_sites_for_state` would have stored it. -/
def parkCacheMi : ParkCache := [(miUrl, [siteIsleRoyale.toDict])]

/-- A parsed site-detail page whose telephone text begins with a digit
and whose postal code carries surrounding whitespace. -/
def pageHoughton : SitePage :=
  ⟨"Isle Royale", "National Park", "Houghton", "MI", " 49931 ",
    "906 482-0984"⟩

/-- A filesystem holding a well-formed state cache file. -/
def fsGood : FS := [("state_cache.json", "\x7b\"michigan\": \"https://www.nps.gov/state/mi/index.htm\"\x7d")]

/-- A filesystem holding a malformed cache file. -/
def fsBad : FS := [("park_cache.json", "not json at all")]

/-! ## Character and whitespace lemmas -/

theorem isDigitChar_iff {c : Char} :
    isDigitChar c = true ↔ 48 ≤ c.toNat ∧ c.toNat ≤ 57 := by
  simp [isDigitChar]

theorem digit_not_ws {c : Char} (h : isDigitChar c = true) :
    isWsChar c = false := by
  cases hb : isWsChar c with
  | false => rfl
  | true =>
    simp only [isWsChar, Bool.or_eq_true, decide_eq_true_eq] at hb
    rcases hb with ((rfl | rfl) | rfl) | rfl <;> exact absurd h (by decide)

theorem digit_ne_of_outside {c d : Char} (h : isDigitChar c = true)
    (hd : d.toNat < 48 ∨ 57 < d.toNat) : c ≠ d := by
  have hb := isDigitChar_iff.mp h
  intro he
  subst he
  omega

theorem digit_head_ne {c : Char} (h : isDigitChar c = true) :
    c ≠ '"' ∧ c ≠ '[' ∧ c ≠ '{' ∧ c ≠ 'n' ∧ c ≠ 't' ∧ c ≠ 'f' ∧
      c ≠ '-' ∧ c ≠ ']' ∧ c ≠ '}' :=
  ⟨digit_ne_of_outside h (by decide), digit_ne_of_outside h (by decide),
    digit_ne_of_outside h (by decide), digit_ne_of_outside h (by decide),
    digit_ne_of_outside h (by decide), digit_ne_of_outside h (by decide),
    digit_ne_of_outside h (by decide), digit_ne_of_outside h (by decide),
    digit_ne_of_outside h (by decide)⟩

theorem skipWs_not_ws {c : Char} (l : List Char) (h : isWsChar c = false) :
    skipWs (c :: l) = c :: l := by
  simp [skipWs, h]

theorem skipWs_space (l : List Char) : skipWs (' ' :: l) = skipWs l := by
  simp [skipWs, isWsChar]

theorem parseJson_space (f : Nat) (l : List Char) :
    parseJson f (' ' :: l) = parseJson f l := by
  cases f with
  | zero => rfl
  | succ g => simp only [parseJson, skipWs_space]

/-! ## Decimal digits: printing then reading -/

theorem digitChar_props {d : Nat} (h : d < 10) :
    isDigitChar (Nat.digitChar d) = true ∧ digitVal (Nat.digitChar d) = d := by
  interval_cases d <;> exact ⟨by decide, by decide⟩

theorem natDigitsAux_ne_nil {f n : Nat} (h : n < f) : natDigitsAux f n ≠ [] := by
  cases f with
  | zero => omega
  | succ g =>
    simp only [natDigitsAux]
    split <;> simp

theorem natDigitsAux_head_digit {f n : Nat} (h : n < f) :
    ∃ c t, natDigitsAux f n = c :: t ∧ isDigitChar c = true := by
  induction n using Nat.strongRecOn generalizing f with
  | _ n IH =>
    cases f with
    | zero => omega
    | succ g =>
      simp only [natDigitsAux]
      by_cases hn : n < 10
      · exact ⟨Nat.digitChar n, [], by simp [hn], (digitChar_props hn).1⟩
      · rw [if_neg hn]
        have hdg : n / 10 < g := by
          have := Nat.div_lt_self (show 0 < n by omega) (show 1 < 10 by omega)
          omega
        obtain ⟨c, t, hct, hc⟩ :=
          IH (n / 10) (Nat.div_lt_self (by omega) (by omega)) hdg
        exact ⟨c, t ++ [Nat.digitChar (n % 10)], by simp [hct], hc⟩

theorem readDigits_natDigitsAux {f n : Nat} (h : n < f) :
    ∀ acc rest, readDigits acc (natDigitsAux f n ++ rest) =
      readDigits (acc * 10 ^ (natDigitsAux f n).length + n) rest := by
  induction n using Nat.strongRecOn generalizing f with
  | _ n IH =>
    intro acc rest
    cases f with
    | zero => omega
    | succ g =>
      by_cases hn : n < 10
      · simp only [natDigitsAux, if_pos hn, List.singleton_append,
          List.length_singleton, readDigits, (digitChar_props hn).1, if_true,
          (digitChar_props hn).2]
        ring_nf
      · have hdiv : n / 10 < g := by
          have := Nat.div_lt_self (show 0 < n by omega) (show 1 < 10 by omega)
          omega
        have hmod : n % 10 < 10 := Nat.mod_lt _ (by omega)
        simp only [natDigitsAux, if_neg hn, List.append_assoc,
          List.singleton_append]
        rw [IH (n / 10) (Nat.div_lt_self (by omega) (by omega)) hdiv]
        simp only [readDigits, (digitChar_props hmod).1, if_true,
          (digitChar_props hmod).2, List.length_append, List.length_singleton]
        have harith :
            10 * (acc * 10 ^ (natDigitsAux g (n / 10)).length + n / 10) +
              n % 10 =
            acc * 10 ^ ((natDigitsAux g (n / 10)).length + 1) + n := by
          have := Nat.div_add_mod n 10
          ring_nf
          omega
        rw [harith]

theorem readDigits_stop {rest : List Char} (h : noLeadDigit rest = true)
    (acc : Nat) : readDigits acc rest = (acc, rest) := by
  cases rest with
  | nil => rfl
  | cons c t =>
    simp only [noLeadDigit, Bool.not_eq_true'] at h
    simp [readDigits, h]

theorem readDigits_natDigits {n : Nat} {rest : List Char}
    (h : noLeadDigit rest = true) :
    readDigits 0 (natDigits n ++ rest) = (n, rest) := by
  rw [natDigits, readDigits_natDigitsAux (Nat.lt_succ_self n),
    readDigits_stop h]
  simp

/-! ## String bodies: escaping then reading back -/

theorem parseStringBody_escape : ∀ (s rest : List Char),
    parseStringBody (escapeChars s ++ '"' :: rest) = some (s, rest) := by
  intro s
  induction s with
  | nil =>
    intro rest
    rw [show escapeChars [] ++ '"' :: rest = '"' :: rest from rfl,
      parseStringBody.eq_def]
    simp
  | cons c cs IH =>
    intro rest
    by_cases h1 : c = '"'
    · subst h1
      rw [show escapeChars ('"' :: cs) = '\\' :: '"' :: escapeChars cs from rfl,
        List.cons_append, List.cons_append, parseStringBody.eq_def]
      simp [unescapeChar, IH]
    · by_cases h2 : c = '\\'
      · subst h2
        rw [show escapeChars ('\\' :: cs) = '\\' :: '\\' :: escapeChars cs
            from rfl,
          List.cons_append, List.cons_append, parseStringBody.eq_def]
        simp [unescapeChar, IH]
      · by_cases h3 : c = '\n'
        · subst h3
          rw [show escapeChars ('\n' :: cs) = '\\' :: 'n' :: escapeChars cs
              from rfl,
            List.cons_append, List.cons_append, parseStringBody.eq_def]
          simp [unescapeChar, IH]
        · by_cases h4 : c = '\t'
          · subst h4
            rw [show escapeChars ('\t' :: cs) = '\\' :: 't' :: escapeChars cs
                from rfl,
              List.cons_append, List.cons_append, parseStringBody.eq_def]
            simp [unescapeChar, IH]
          · by_cases h5 : c = '\r'
            · subst h5
              rw [show escapeChars ('\r' :: cs) = '\\' :: 'r' :: escapeChars cs
                  from rfl,
                List.cons_append, List.cons_append, parseStringBody.eq_def]
              simp [unescapeChar, IH]
            · rw [show escapeChars (c :: cs) = c :: escapeChars cs by
                  simp [escapeChars, h1, h2, h3, h4, h5],
                List.cons_append, parseStringBody.eq_def]
              simp [h1, h2, IH]

/-! ## Shape facts about serialized output -/

theorem jsize_pos : ∀ j : Json, 1 ≤ jsize j := by
  intro j; cases j <;> simp [jsize] <;> omega

theorem lsize_pos : ∀ l : List Json, 1 ≤ lsize l := by
  intro l; cases l <;> simp [lsize] <;> omega

theorem msize_pos : ∀ l : List (String × Json), 1 ≤ msize l := by
  intro l; cases l <;> simp [msize] <;> omega

theorem dumpsChars_head (j : Json) :
    ∃ c t, dumpsChars j = c :: t ∧ isWsChar c = false ∧ c ≠ ']' ∧ c ≠ '}' := by
  cases j with
  | null =>
    refine ⟨'n', _, rfl, ?_⟩
    decide
  | bool b =>
    rcases b with _ | _
    · refine ⟨'f', _, rfl, ?_⟩
      decide
    · refine ⟨'t', _, rfl, ?_⟩
      decide
  | str s =>
    refine ⟨'"', _, rfl, ?_⟩
    decide
  | arr xs =>
    rcases xs with _ | ⟨x, xs⟩
    · refine ⟨'[', _, rfl, ?_⟩
      decide
    · refine ⟨'[', _, rfl, ?_⟩
      decide
  | obj kvs =>
    rcases kvs with _ | ⟨kv, kvs⟩
    · refine ⟨'{', _, rfl, ?_⟩
      decide
    · refine ⟨'{', _, rfl, ?_⟩
      decide
  | num n =>
    have hd : dumpsChars (Json.num n) = intChars n := rfl
    rw [hd, intChars]
    by_cases hn : n < 0
    · rw [if_pos hn]
      exact ⟨'-', _, rfl, by decide, by decide, by decide⟩
    · rw [if_neg hn]
      obtain ⟨c, t, hct, hc⟩ :=
        natDigitsAux_head_digit (Nat.lt_succ_self n.toNat)
      rw [natDigits]
      refine ⟨c, t, hct, digit_not_ws hc, ?_, ?_⟩
      · exact (digit_head_ne hc).2.2.2.2.2.2.2.1
      · exact (digit_head_ne hc).2.2.2.2.2.2.2.2

theorem skipWs_dumpsChars (j : Json) (X : List Char) :
    skipWs (dumpsChars j ++ X) = dumpsChars j ++ X := by
  obtain ⟨c, t, hct, hcw, _, _⟩ := dumpsChars_head j
  rw [hct, List.cons_append, skipWs_not_ws _ hcw]

theorem noLeadDigit_dumpsTail (ys : List Json) (rest : List Char) :
    noLeadDigit (dumpsTail ys ++ ']' :: rest) = true := by
  cases ys <;> rfl

theorem noLeadDigit_dumpMembersTail (kvs : List (String × Json))
    (rest : List Char) :
    noLeadDigit (dumpMembersTail kvs ++ '}' :: rest) = true := by
  cases kvs with
  | nil => rfl
  | cons kv kvs => cases kv; rfl

theorem readDigits_after_head {m : Nat} {c : Char} {t rest : List Char}
    (hct : natDigits m = c :: t) (hrest : noLeadDigit rest = true) :
    readDigits (digitVal c) (t ++ rest) = (m, rest) := by
  have hc : isDigitChar c = true := by
    obtain ⟨c2, t2, hct2, hc2⟩ :=
      natDigitsAux_head_digit (Nat.lt_succ_self m)
    rw [natDigits] at hct
    rw [hct] at hct2
    cases hct2
    exact hc2
  have h0 := @readDigits_natDigits m rest hrest
  rw [hct, List.cons_append] at h0
  simp only [readDigits, hc, if_true, Nat.mul_zero, Nat.zero_add] at h0
  exact h0

/-! ## Reading back serialized output -/

theorem parseItemsTail_dumps :
    ∀ xs : List Json,
      (∀ y ∈ xs, ∀ f r, jsize y ≤ f → noLeadDigit r = true →
        parseJson f (dumpsChars y ++ r) = some (y, r)) →
      ∀ f rest, lsize xs + 1 ≤ f →
        parseItemsTail f (dumpsTail xs ++ ']' :: rest) = some (xs, rest) := by
  intro xs
  induction xs with
  | nil =>
    intro _ f rest hf
    obtain ⟨g, rfl⟩ : ∃ g, f = g + 1 := ⟨f - 1, by simp [lsize] at hf; omega⟩
    rfl
  | cons y ys IH =>
    intro hel f rest hf
    obtain ⟨g, rfl⟩ : ∃ g, f = g + 1 :=
      ⟨f - 1, by simp [lsize] at hf; omega⟩
    have hy : jsize y ≤ g := by
      simp [lsize] at hf
      have := lsize_pos ys
      omega
    have hys : lsize ys + 1 ≤ g := by
      simp [lsize] at hf
      have := jsize_pos y
      omega
    have hinput : dumpsTail (y :: ys) ++ ']' :: rest =
        ',' :: ' ' :: (dumpsChars y ++ (dumpsTail ys ++ ']' :: rest)) := by
      simp [dumpsTail, List.append_assoc]
    rw [hinput, parseItemsTail.eq_def]
    simp only [skipWs_not_ws _ (by decide : isWsChar ',' = false)]
    rw [parseJson_space,
      hel y (List.mem_cons_self y ys) g _ hy (noLeadDigit_dumpsTail ys rest)]
    dsimp only
    rw [IH (fun z hz => hel z (List.mem_cons_of_mem y hz)) g rest hys]

theorem parseMember_dumps (k : String) (v : Json)
    (hv : ∀ f r, jsize v ≤ f → noLeadDigit r = true →
      parseJson f (dumpsChars v ++ r) = some (v, r)) :
    ∀ f rest, jsize v + 1 ≤ f → noLeadDigit rest = true →
      parseMember f (dumpMember (k, v) ++ rest) = some ((k, v), rest) := by
  intro f rest hf hrest
  obtain ⟨g, rfl⟩ : ∃ g, f = g + 1 := ⟨f - 1, by omega⟩
  have hinput : dumpMember (k, v) ++ rest =
      '"' :: (escapeChars k.data ++ '"' :: (':' :: ' ' :: (dumpsChars v ++ rest))) := by
    simp [dumpMember, List.append_assoc]
  rw [hinput, parseMember.eq_def]
  simp only [skipWs_not_ws _ (by decide : isWsChar '"' = false)]
  rw [show (escapeChars k.data ++ '"' :: (':' :: ' ' :: (dumpsChars v ++ rest))) =
      (escapeChars k.data ++ '"' :: (':' :: ' ' :: (dumpsChars v ++ rest))) from rfl]
  rw [parseStringBody_escape k.data (':' :: ' ' :: (dumpsChars v ++ rest))]
  simp only [skipWs_not_ws _ (by decide : isWsChar ':' = false)]
  rw [parseJson_space, hv g rest (by omega) hrest]

theorem parseMembersTail_dumps :
    ∀ kvs : List (String × Json),
      (∀ kv ∈ kvs, ∀ f r, jsize (kv : String × Json).2 ≤ f → noLeadDigit r = true →
        parseJson f (dumpsChars kv.2 ++ r) = some (kv.2, r)) →
      ∀ f rest, msize kvs + 1 ≤ f →
        parseMembersTail f (dumpMembersTail kvs ++ '}' :: rest) =
          some (kvs, rest) := by
  intro kvs
  induction kvs with
  | nil =>
    intro _ f rest hf
    obtain ⟨g, rfl⟩ : ∃ g, f = g + 1 := ⟨f - 1, by simp [msize] at hf; omega⟩
    rfl
  | cons kv kvs IH =>
    intro hel f rest hf
    obtain ⟨k, v⟩ := kv
    obtain ⟨g, rfl⟩ : ∃ g, f = g + 1 :=
      ⟨f - 1, by simp [msize] at hf; omega⟩
    have hv : jsize v + 1 ≤ g := by
      simp [msize] at hf
      have := msize_pos kvs
      omega
    have hkvs : msize kvs + 1 ≤ g := by
      simp [msize] at hf
      have := jsize_pos v
      omega
    have hinput : dumpMembersTail ((k, v) :: kvs) ++ '}' :: rest =
        ',' :: ' ' :: (dumpMember (k, v) ++ (dumpMembersTail kvs ++ '}' :: rest)) := by
      simp [dumpMembersTail, List.append_assoc]
    rw [hinput, parseMembersTail.eq_def]
    simp only [skipWs_not_ws _ (by decide : isWsChar ',' = false)]
    have hm : parseMember g (' ' :: (dumpMember (k, v) ++ (dumpMembersTail kvs ++ '}' :: rest))) =
        some ((k, v), dumpMembersTail kvs ++ '}' :: rest) := by
      obtain ⟨g2, rfl⟩ : ∃ g2, g = g2 + 1 := ⟨g - 1, by omega⟩
      rw [parseMember.eq_def]
      simp only [skipWs_space]
      rw [show skipWs (dumpMember (k, v) ++ (dumpMembersTail kvs ++ '}' :: rest)) =
          dumpMember (k, v) ++ (dumpMembersTail kvs ++ '}' :: rest) by
        simp [dumpMember, List.cons_append, skipWs_not_ws _ (by decide : isWsChar '"' = false)]]
      have := parseMember_dumps k v
        (fun f2 r2 h1 h2 => hel (k, v) (List.mem_cons_self _ _) f2 r2 h1 h2)
        (g2 + 1) (dumpMembersTail kvs ++ '}' :: rest) (by omega)
        (noLeadDigit_dumpMembersTail kvs rest)
      rw [parseMember.eq_def] at this
      simpa [dumpMember, List.cons_append,
        skipWs_not_ws _ (by decide : isWsChar '"' = false)] using this
    rw [hm]
    dsimp only
    rw [IH (fun z hz => hel z (List.mem_cons_of_mem _ hz)) g rest hkvs]

theorem parseJson_arr_step (g : Nat) (x : Json) (X : List Char) :
    parseJson (g + 1) ('[' :: (dumpsChars x ++ X)) =
      match parseJson g (dumpsChars x ++ X) with
      | some (y, r1) =>
        (match parseItemsTail g r1 with
         | some (ys, r2) => some (Json.arr (y :: ys), r2)
         | none => none)
      | none => none := by
  obtain ⟨c, t, hct, hcw, hc1, hc2⟩ := dumpsChars_head x
  rw [parseJson.eq_2, skipWs_not_ws _ (by decide : isWsChar '[' = false)]
  dsimp only
  rw [hct, List.cons_append, skipWs_not_ws _ hcw]
  simp [hc1]

theorem parseJson_obj_step (g : Nat) (kv : String × Json) (X : List Char) :
    parseJson (g + 1) ('{' :: (dumpMember kv ++ X)) =
      match parseMember g (dumpMember kv ++ X) with
      | some (kv1, r1) =>
        (match parseMembersTail g r1 with
         | some (kvs, r2) => some (Json.obj (kv1 :: kvs), r2)
         | none => none)
      | none => none := by
  obtain ⟨k, v⟩ := kv
  rw [parseJson.eq_2, skipWs_not_ws _ (by decide : isWsChar '{' = false)]
  dsimp only
  rw [show dumpMember (k, v) ++ X =
      '"' :: (escapeChars k.data ++ '"' :: ':' :: ' ' :: dumpsChars v ++ X)
    by simp [dumpMember, List.append_assoc]]
  rw [skipWs_not_ws _ (by decide : isWsChar '"' = false)]
  simp

theorem parseJson_dumps_aux :
    ∀ N : Nat, ∀ j : Json, sizeOf j ≤ N → ∀ f rest, jsize j ≤ f →
      noLeadDigit rest = true →
      parseJson f (dumpsChars j ++ rest) = some (j, rest) := by
  intro N
  induction N using Nat.strongRecOn with
  | _ N IH =>
    intro j hN f rest hf hrest
    cases j with
    | null =>
      obtain ⟨g, rfl⟩ : ∃ g, f = g + 1 := ⟨f - 1, by simp [jsize] at hf; omega⟩
      rfl
    | bool b =>
      obtain ⟨g, rfl⟩ : ∃ g, f = g + 1 := ⟨f - 1, by simp [jsize] at hf; omega⟩
      cases b <;> rfl
    | str s =>
      obtain ⟨g, rfl⟩ : ∃ g, f = g + 1 := ⟨f - 1, by simp [jsize] at hf; omega⟩
      rw [show dumpsChars (Json.str s) ++ rest =
          '"' :: (escapeChars s.data ++ '"' :: rest) by
        simp [dumpsChars, List.append_assoc]]
      rw [parseJson.eq_2, skipWs_not_ws _ (by decide : isWsChar '"' = false)]
      simp [parseStringBody_escape]
    | num n =>
      obtain ⟨g, rfl⟩ : ∃ g, f = g + 1 := ⟨f - 1, by simp [jsize] at hf; omega⟩
      by_cases hn : n < 0
      · have hm : dumpsChars (Json.num n) = '-' :: natDigits (-n).toNat := by
          simp [dumpsChars, intChars, hn]
        obtain ⟨c, t, hct0, hc⟩ :=
          natDigitsAux_head_digit (Nat.lt_succ_self (-n).toNat)
        have hct : natDigits (-n).toNat = c :: t := by rw [natDigits]; exact hct0
        rw [hm, hct, List.cons_append, List.cons_append]
        rw [parseJson.eq_2, skipWs_not_ws _ (by decide : isWsChar '-' = false)]
        dsimp only
        rw [if_neg (by decide : ¬('-' : Char) = '"'),
          if_neg (by decide : ¬('-' : Char) = '['),
          if_neg (by decide : ¬('-' : Char) = '{'),
          if_neg (by decide : ¬('-' : Char) = 'n'),
          if_neg (by decide : ¬('-' : Char) = 't'),
          if_neg (by decide : ¬('-' : Char) = 'f'),
          if_pos (rfl : ('-' : Char) = '-')]
        rw [if_pos hc, readDigits_after_head hct hrest]
        have hcast : (((-n).toNat : Nat) : Int) = -n :=
          Int.toNat_of_nonneg (by omega)
        simp [hcast]
      · have hm : dumpsChars (Json.num n) = natDigits n.toNat := by
          simp [dumpsChars, intChars, hn]
        obtain ⟨c, t, hct0, hc⟩ :=
          natDigitsAux_head_digit (Nat.lt_succ_self n.toNat)
        have hct : natDigits n.toNat = c :: t := by rw [natDigits]; exact hct0
        rw [hm, hct, List.cons_append]
        rw [parseJson.eq_2, skipWs_not_ws _ (digit_not_ws hc)]
        dsimp only
        obtain ⟨h1, h2, h3, h4, h5, h6, h7, _, _⟩ := digit_head_ne hc
        rw [if_neg h1, if_neg h2, if_neg h3, if_neg h4, if_neg h5, if_neg h6,
          if_neg h7, if_pos hc, readDigits_after_head hct hrest]
        have hcast : ((n.toNat : Nat) : Int) = n :=
          Int.toNat_of_nonneg (by omega)
        simp [hcast]
    | arr xs =>
      cases xs with
      | nil =>
        obtain ⟨g, rfl⟩ : ∃ g, f = g + 1 :=
          ⟨f - 1, by simp [jsize, lsize] at hf; omega⟩
        rfl
      | cons x xs =>
        obtain ⟨g, rfl⟩ : ∃ g, f = g + 1 :=
          ⟨f - 1, by simp [jsize, lsize] at hf; omega⟩
        have hszx : sizeOf x < N := by
          have h1 := List.sizeOf_lt_of_mem (List.mem_cons_self x xs)
          have h2 : sizeOf (Json.arr (x :: xs)) = 1 + sizeOf (x :: xs) :=
            Json.arr.sizeOf_spec (x :: xs)
          omega
        have hx : ∀ f2 r2, jsize x ≤ f2 → noLeadDigit r2 = true →
            parseJson f2 (dumpsChars x ++ r2) = some (x, r2) :=
          fun f2 r2 h1 h2 => IH (sizeOf x) hszx x le_rfl f2 r2 h1 h2
        have hxs : ∀ y ∈ xs, ∀ f2 r2, jsize y ≤ f2 → noLeadDigit r2 = true →
            parseJson f2 (dumpsChars y ++ r2) = some (y, r2) := by
          intro y hy f2 r2 h1 h2
          have hszy : sizeOf y < N := by
            have ha := List.sizeOf_lt_of_mem (List.mem_cons_of_mem x hy)
            have hb : sizeOf (Json.arr (x :: xs)) = 1 + sizeOf (x :: xs) :=
              Json.arr.sizeOf_spec (x :: xs)
            omega
          exact IH (sizeOf y) hszy y le_rfl f2 r2 h1 h2
        have harith : jsize x ≤ g ∧ lsize xs + 1 ≤ g := by
          simp [jsize, lsize] at hf
          have := jsize_pos x
          have := lsize_pos xs
          omega
        rw [show dumpsChars (Json.arr (x :: xs)) ++ rest =
            '[' :: (dumpsChars x ++ (dumpsTail xs ++ ']' :: rest)) by
          simp [dumpsChars, List.append_assoc]]
        rw [parseJson_arr_step,
          hx g _ harith.1 (noLeadDigit_dumpsTail xs rest)]
        dsimp only
        rw [parseItemsTail_dumps xs hxs g rest harith.2]
    | obj kvs =>
      cases kvs with
      | nil =>
        obtain ⟨g, rfl⟩ : ∃ g, f = g + 1 :=
          ⟨f - 1, by simp [jsize, msize] at hf; omega⟩
        rfl
      | cons kv kvs =>
        obtain ⟨k, v⟩ := kv
        obtain ⟨g, rfl⟩ : ∃ g, f = g + 1 :=
          ⟨f - 1, by simp [jsize, msize] at hf; omega⟩
        have hszv : sizeOf v < N := by
          have h1 := List.sizeOf_lt_of_mem (List.mem_cons_self (k, v) kvs)
          have h2 : sizeOf (Json.obj ((k, v) :: kvs)) =
              1 + sizeOf ((k, v) :: kvs) := Json.obj.sizeOf_spec ((k, v) :: kvs)
          have h3 : sizeOf (k, v) = 1 + sizeOf k + sizeOf v :=
            Prod.mk.sizeOf_spec k v
          omega
        have hv : ∀ f2 r2, jsize v ≤ f2 → noLeadDigit r2 = true →
            parseJson f2 (dumpsChars v ++ r2) = some (v, r2) :=
          fun f2 r2 h1 h2 => IH (sizeOf v) hszv v le_rfl f2 r2 h1 h2
        have hkvs : ∀ kv2 ∈ kvs, ∀ f2 r2,
            jsize (kv2 : String × Json).2 ≤ f2 → noLeadDigit r2 = true →
            parseJson f2 (dumpsChars kv2.2 ++ r2) = some (kv2.2, r2) := by
          intro kv2 hkv2 f2 r2 h1 h2
          have hszy : sizeOf kv2.2 < N := by
            have ha := List.sizeOf_lt_of_mem (List.mem_cons_of_mem (k, v) hkv2)
            have hb : sizeOf (Json.obj ((k, v) :: kvs)) =
                1 + sizeOf ((k, v) :: kvs) :=
              Json.obj.sizeOf_spec ((k, v) :: kvs)
            obtain ⟨k2, v2⟩ := kv2
            have hcc : sizeOf (k2, v2) = 1 + sizeOf k2 + sizeOf v2 :=
              Prod.mk.sizeOf_spec k2 v2
            simp only at *
            omega
          exact IH (sizeOf kv2.2) hszy kv2.2 le_rfl f2 r2 h1 h2
        have harith : jsize v + 1 ≤ g ∧ msize kvs + 1 ≤ g := by
          simp [jsize, msize] at hf
          have := jsize_pos v
          have := msize_pos kvs
          omega
        rw [show dumpsChars (Json.obj ((k, v) :: kvs)) ++ rest =
            '{' :: (dumpMember (k, v) ++ (dumpMembersTail kvs ++ '}' :: rest)) by
          simp [dumpsChars, List.append_assoc]]
        rw [parseJson_obj_step,
          parseMember_dumps k v hv g _ harith.1
            (noLeadDigit_dumpMembersTail kvs rest)]
        dsimp only
        rw [parseMembersTail_dumps kvs hkvs g rest harith.2]

theorem parseJson_dumps (j : Json) (f : Nat) (rest : List Char)
    (hf : jsize j ≤ f) (hrest : noLeadDigit rest = true) :
    parseJson f (dumpsChars j ++ rest) = some (j, rest) :=
  parseJson_dumps_aux (sizeOf j) j le_rfl f rest hf hrest

theorem lsize_le_tail :
    ∀ xs : List Json, (∀ x ∈ xs, jsize x ≤ 2 * (dumpsChars x).length) →
      lsize xs ≤ 2 * (dumpsTail xs).length + 2 := by
  intro xs
  induction xs with
  | nil => intro _; simp [lsize, dumpsTail]
  | cons x xs IH =>
    intro hel
    have h1 := hel x (List.mem_cons_self x xs)
    have h2 := IH (fun y hy => hel y (List.mem_cons_of_mem x hy))
    simp only [lsize, dumpsTail, List.length_cons, List.length_append]
    omega

theorem msize_le_tail :
    ∀ kvs : List (String × Json),
      (∀ kv ∈ kvs, jsize (kv : String × Json).2 ≤ 2 * (dumpsChars kv.2).length) →
      msize kvs ≤ 2 * (dumpMembersTail kvs).length + 2 := by
  intro kvs
  induction kvs with
  | nil => intro _; simp [msize, dumpMembersTail]
  | cons kv kvs IH =>
    intro hel
    obtain ⟨k, v⟩ := kv
    have h1 := hel (k, v) (List.mem_cons_self _ _)
    have h2 := IH (fun y hy => hel y (List.mem_cons_of_mem _ hy))
    simp only [msize, dumpMembersTail, dumpMember, List.length_cons,
      List.length_append] at *
    omega

theorem jsize_le :
    ∀ j : Json, jsize j ≤ 2 * (dumpsChars j).length := by
  have main : ∀ N : Nat, ∀ j : Json, sizeOf j ≤ N →
      jsize j ≤ 2 * (dumpsChars j).length := by
    intro N
    induction N using Nat.strongRecOn with
    | _ N IH =>
      intro j hN
      cases j with
      | null => simp [jsize, dumpsChars]
      | bool b => cases b <;> simp [jsize, dumpsChars]
      | num n =>
        have h1 : (dumpsChars (Json.num n)).length = (intChars n).length := rfl
        rw [jsize, h1, intChars]
        by_cases hn : n < 0
        · rw [if_pos hn]
          obtain ⟨c, t, hct, _⟩ :=
            natDigitsAux_head_digit (Nat.lt_succ_self (-n).toNat)
          rw [natDigits, hct]
          simp only [List.length_cons]
          omega
        · rw [if_neg hn]
          obtain ⟨c, t, hct, _⟩ :=
            natDigitsAux_head_digit (Nat.lt_succ_self n.toNat)
          rw [natDigits, hct]
          simp [List.length_cons]
          omega
      | str s => simp [jsize, dumpsChars]; omega
      | arr xs =>
        cases xs with
        | nil => simp [jsize, lsize, dumpsChars]
        | cons x xs =>
          have hszx : sizeOf x < N := by
            have h1 := List.sizeOf_lt_of_mem (List.mem_cons_self x xs)
            have h2 : sizeOf (Json.arr (x :: xs)) = 1 + sizeOf (x :: xs) :=
              Json.arr.sizeOf_spec (x :: xs)
            omega
          have hx := IH (sizeOf x) hszx x le_rfl
          have hxs : ∀ y ∈ xs, jsize y ≤ 2 * (dumpsChars y).length := by
            intro y hy
            have hszy : sizeOf y < N := by
              have ha := List.sizeOf_lt_of_mem (List.mem_cons_of_mem x hy)
              have hb : sizeOf (Json.arr (x :: xs)) = 1 + sizeOf (x :: xs) :=
                Json.arr.sizeOf_spec (x :: xs)
              omega
            exact IH (sizeOf y) hszy y le_rfl
          have ht := lsize_le_tail xs hxs
          simp only [jsize, lsize, dumpsChars, List.length_cons,
            List.length_append] at *
          omega
      | obj kvs =>
        cases kvs with
        | nil => simp [jsize, msize, dumpsChars]
        | cons kv kvs =>
          obtain ⟨k, v⟩ := kv
          have hszv : sizeOf v < N := by
            have h1 := List.sizeOf_lt_of_mem (List.mem_cons_self (k, v) kvs)
            have h2 : sizeOf (Json.obj ((k, v) :: kvs)) =
                1 + sizeOf ((k, v) :: kvs) :=
              Json.obj.sizeOf_spec ((k, v) :: kvs)
            have h3 : sizeOf (k, v) = 1 + sizeOf k + sizeOf v :=
              Prod.mk.sizeOf_spec k v
            omega
          have hv := IH (sizeOf v) hszv v le_rfl
          have hkvs : ∀ kv2 ∈ kvs,
              jsize (kv2 : String × Json).2 ≤ 2 * (dumpsChars kv2.2).length := by
            intro kv2 hkv2
            have hszy : sizeOf kv2.2 < N := by
              have ha := List.sizeOf_lt_of_mem (List.mem_cons_of_mem (k, v) hkv2)
              have hb : sizeOf (Json.obj ((k, v) :: kvs)) =
                  1 + sizeOf ((k, v) :: kvs) :=
                Json.obj.sizeOf_spec ((k, v) :: kvs)
              obtain ⟨k2, v2⟩ := kv2
              have hcc : sizeOf (k2, v2) = 1 + sizeOf k2 + sizeOf v2 :=
                Prod.mk.sizeOf_spec k2 v2
              simp only at *
              omega
            exact IH (sizeOf kv2.2) hszy kv2.2 le_rfl
          have ht := msize_le_tail kvs hkvs
          simp only [jsize, msize, dumpsChars, dumpMember, List.length_cons,
            List.length_append] at *
          omega
  exact fun j => main (sizeOf j) j le_rfl

/-- `json.loads` is a left inverse of `json.dumps`: the library
round-trip underlying the cache store. -/
theorem loads_dumps (j : Json) : loads (dumps j) = some j := by
  have hsz := jsize_le j
  have h := parseJson_dumps j (2 * (dumpsChars j).length + 2) []
    (by omega) rfl
  rw [List.append_nil] at h
  unfold loads dumps
  rw [show (String.mk (dumpsChars j)).data = dumpsChars j from rfl, h]
  rfl

/-! ## Cache and record lemmas -/

theorem assocLookup_insert_self {α : Type} (l : List (String × α))
    (k : String) (v : α) :
    assocLookup (assocInsert l k v) k = some v := by
  induction l with
  | nil => simp [assocInsert, assocLookup]
  | cons kv rest IH =>
    obtain ⟨k2, w⟩ := kv
    by_cases h : k2 = k
    · subst h; simp [assocInsert, assocLookup]
    · simp [assocInsert, assocLookup, h, IH]

/-- The general save-then-load law of the cache store. -/
theorem open_cache_save_cache (j : Json) (filename : String) (fs : FS) :
    open_cache (save_cache j filename fs) filename = j := by
  unfold open_cache save_cache readFS writeFS
  rw [assocLookup_insert_self]
  simp [loads_dumps]

theorem mapMOpt_forall2 {α β : Type} (f : α → Option β) :
    ∀ (l : List α) (l2 : List β), mapMOpt f l = some l2 →
      List.Forall₂ (fun y x => f x = some y) l2 l := by
  intro l
  induction l with
  | nil =>
    intro l2 h
    simp only [mapMOpt, Option.some.injEq] at h
    subst h
    exact List.Forall₂.nil
  | cons x xs IH =>
    intro l2 h
    simp only [mapMOpt] at h
    cases hfx : f x with
    | none =>
      simp only [hfx] at h
      exact Option.noConfusion h
    | some y =>
      cases hxs : mapMOpt f xs with
      | none =>
        simp only [hfx, hxs] at h
        exact Option.noConfusion h
      | some ys =>
        simp only [hfx, hxs, Option.some.injEq] at h
        subst h
        exact List.Forall₂.cons hfx (IH ys hxs)

theorem siteFromDict_matches (d : Json) (s : NationalSite)
    (h : siteFromDict d = some s) : siteMatchesDict s d := by
  cases d with
  | obj kvs =>
    simp only [siteFromDict] at h
    split at h
    next x1 x2 x3 x4 x5 c n a z p h1 h2 h3 h4 h5 =>
      obtain rfl : NationalSite.mk c n a z p = s := by
        injection h
      exact ⟨kvs, rfl, h1, h2, h3, h4, h5⟩
    next => exact absurd h (by simp)
  | null => exact absurd h (by simp [siteFromDict])
  | bool b => exact absurd h (by simp [siteFromDict])
  | num n => exact absurd h (by simp [siteFromDict])
  | str st => exact absurd h (by simp [siteFromDict])
  | arr xs => exact absurd h (by simp [siteFromDict])

/-! ## Python `strip` decomposition -/

theorem pyStrip_spec (s : String) :
    ∃ pre post, s.data = pre ++ (pyStrip s).data ++ post ∧
      (∀ c ∈ pre, isPySpace c = true) ∧
      (∀ c ∈ post, isPySpace c = true) ∧
      (∀ c, (pyStrip s).data.head? = some c → isPySpace c = false) ∧
      (∀ c, (pyStrip s).data.getLast? = some c → isPySpace c = false) := by
  have hdata : (pyStrip s).data =
      ((s.data.dropWhile isPySpace).reverse.dropWhile isPySpace).reverse := rfl
  have hsplitA : s.data.dropWhile isPySpace =
      ((s.data.dropWhile isPySpace).reverse.dropWhile isPySpace).reverse ++
        ((s.data.dropWhile isPySpace).reverse.takeWhile isPySpace).reverse := by
    conv_lhs => rw [← List.reverse_reverse (s.data.dropWhile isPySpace)]
    conv_lhs =>
      rw [← List.takeWhile_append_dropWhile isPySpace
        (s.data.dropWhile isPySpace).reverse]
    rw [List.reverse_append]
  refine ⟨s.data.takeWhile isPySpace,
    ((s.data.dropWhile isPySpace).reverse.takeWhile isPySpace).reverse,
    ?_, ?_, ?_, ?_, ?_⟩
  · rw [hdata, List.append_assoc, ← hsplitA,
      List.takeWhile_append_dropWhile]
  · intro c hc; exact List.mem_takeWhile_imp hc
  · intro c hc; exact List.mem_takeWhile_imp (List.mem_reverse.mp hc)
  · intro c hc
    rw [hdata] at hc
    cases hrev : ((s.data.dropWhile isPySpace).reverse.dropWhile
        isPySpace).reverse with
    | nil => rw [hrev] at hc; cases hc
    | cons c0 t =>
      rw [hrev] at hc
      have hceq : c0 = c := by simpa using hc
      have hAhead : (s.data.dropWhile isPySpace).head? = some c0 := by
        rw [hsplitA, hrev]; rfl
      have hprop := List.head?_dropWhile_not isPySpace s.data
      rw [hAhead] at hprop
      rw [← hceq]
      exact hprop
  · intro c hc
    rw [hdata, List.getLast?_reverse] at hc
    have hprop := List.head?_dropWhile_not isPySpace
      (s.data.dropWhile isPySpace).reverse
    rw [hc] at hprop
    exact hprop

/-! ## The claims -/

/-- C1: for every state URL already present as a key of the site-list
cache (holding well-formed field mappings, as a first call stores them),
`get_sites_for_state` performs zero network calls, leaves cache and disk
untouched, and returns `Site` records whose five fields are
element-for-element identical to the cached field mappings. -/
theorem claim_C1_site_list_cache_hit
    (cache : ParkCache) (fs : FS) (net : Network) (state_url : String)
    (entry : List Json) (sites : List NationalSite)
    (hhit : assocLookup cache state_url = some entry)
    (hwf : cache_to_obj entry = some sites) :
    get_sites_for_state cache fs net state_url =
      ⟨some sites, cache, fs, []⟩ ∧
    List.Forall₂ siteMatchesDict sites entry := by
  constructor
  · simp only [get_sites_for_state, hhit, hwf]
  · exact (mapMOpt_forall2 siteFromDict entry sites hwf).imp
      (fun s d h => siteFromDict_matches d s h)

/-- Witness for C1 at a concrete populated cache. -/
theorem claim_C1_witness :
    get_sites_for_state parkCacheMi [] netEmpty miUrl =
      ⟨some [siteIsleRoyale], parkCacheMi, [], []⟩ ∧
    List.Forall₂ siteMatchesDict [siteIsleRoyale] [siteIsleRoyale.toDict] :=
  claim_C1_site_list_cache_hit parkCacheMi [] netEmpty miUrl
    [siteIsleRoyale.toDict] [siteIsleRoyale] rfl rfl

/-- C2: the cache load returns the JSON-decoded document when the file
exists and decodes, and the empty map on a missing file or malformed
content (the bare `except:`), never an error. -/
theorem claim_C2_open_cache_total (fs : FS) (path : String) :
    (∀ content j, readFS fs path = some content → loads content = some j →
      open_cache fs path = j) ∧
    (readFS fs path = none → open_cache fs path = Json.obj []) ∧
    (∀ content, readFS fs path = some content → loads content = none →
      open_cache fs path = Json.obj []) := by
  refine ⟨?_, ?_, ?_⟩
  · intro content j h1 h2
    simp [open_cache, h1, h2]
  · intro h1
    simp [open_cache, h1]
  · intro content h1 h2
    simp [open_cache, h1, h2]

/-- Witness for C2: a decodable file, a missing file, a malformed file. -/
theorem claim_C2_witness :
    open_cache fsGood "state_cache.json" =
      Json.obj [("michigan",
        Json.str "https://www.nps.gov/state/mi/index.htm")] ∧
    open_cache [] "state_cache.json" = Json.obj [] ∧
    open_cache fsBad "park_cache.json" = Json.obj [] :=
  ⟨(claim_C2_open_cache_total fsGood "state_cache.json").1 _ _ rfl rfl,
    (claim_C2_open_cache_total [] "state_cache.json").2.1 rfl,
    (claim_C2_open_cache_total fsBad "park_cache.json").2.2 _ rfl rfl⟩

/-- C3: saving any map of string keys to JSON values with `save_cache`
and loading the same file with `open_cache` returns an equal map. -/
theorem claim_C3_cache_roundtrip (kvs : List (String × Json))
    (filename : String) (fs : FS) :
    open_cache (save_cache (Json.obj kvs) filename fs) filename =
      Json.obj kvs :=
  open_cache_save_cache (Json.obj kvs) filename fs

/-- C4: two sites with identical name, category, address and zipcode
produce the same nearby cache key (`info()` does not read the phone
field), and indeed `get_nearby_places` behaves identically on them. -/
theorem claim_C4_cache_key_ignores_phone
    (category name address zipcode phone1 phone2 : String) :
    NationalSite.info ⟨category, name, address, zipcode, phone1⟩ =
      NationalSite.info ⟨category, name, address, zipcode, phone2⟩ ∧
    ∀ (nearCache : List (String × Json)) (fs : FS) (api : String → Json)
      (apiKey : String),
      get_nearby_places nearCache fs api apiKey
          ⟨category, name, address, zipcode, phone1⟩ =
        get_nearby_places nearCache fs api apiKey
          ⟨category, name, address, zipcode, phone2⟩ :=
  ⟨rfl, fun _ _ _ _ => rfl⟩

/-- C5: with an empty state cache and a dropdown holding exactly
`("Michigan", "/state/mi/index.htm")`, `get_state_map` returns the
lowercased-name-to-absolute-URL map and the cache file then holds that
same object. -/
theorem claim_C5_state_map_scenario (fs : FS) :
    (build_state_url_dict [] fs [("Michigan", "/state/mi/index.htm")]).1 =
      [("michigan", "https://www.nps.gov/state/mi/index.htm")] ∧
    open_cache
        (build_state_url_dict [] fs
          [("Michigan", "/state/mi/index.htm")]).2.1 STATE_CACHE_FILENAME =
      Json.obj [("michigan",
        Json.str "https://www.nps.gov/state/mi/index.htm")] := by
  constructor
  · rfl
  · have hb : (build_state_url_dict [] fs
        [("Michigan", "/state/mi/index.htm")]).2.1 =
        save_cache (Json.obj [("michigan",
          Json.str "https://www.nps.gov/state/mi/index.htm")])
          STATE_CACHE_FILENAME fs := rfl
    rw [hb, open_cache_save_cache]

/-- C6 counterexample: "0" is numeric and outside 1..length for the
one-element list, yet the session prints no error and hands the last
site to the nearby fetch instead of re-prompting with an error. -/
theorem claim_C6_counterexample :
    pyInt? "0" = some 0 ∧
    ¬(1 ≤ (0 : Int) ∧ (0 : Int) ≤ (parkLsOne.length : Int)) ∧
    (selectSiteStep parkLsOne [] [] apiEmpty "KEY" "0").printed = [] ∧
    (selectSiteStep parkLsOne [] [] apiEmpty "KEY" "0").fetchedSite =
      some siteIsleRoyale ∧
    (selectSiteStep parkLsOne [] [] apiEmpty "KEY" "0").phase =
      NextPhase.selectSiteAgain :=
  ⟨rfl, by omega, rfl, rfl, rfl⟩

/-- C6 (amended): for every numeric input whose value exceeds the list
length, the session prints exactly "[Error] Invalid input", performs no
fetch, and re-prompts in `SelectSite` with everything unchanged (inputs
`≤ 0` instead pass the range check and index from the end). -/
theorem claim_C6_amended_out_of_range (park_ls : List NationalSite)
    (nearCache : List (String × Json)) (fs : FS) (api : String → Json)
    (apiKey : String) (input : String) (n : Int)
    (hn : pyInt? input = some n) (hgt : (park_ls.length : Int) < n) :
    selectSiteStep park_ls nearCache fs api apiKey input =
      ⟨.selectSiteAgain, ["[Error] Invalid input"], nearCache, fs, [],
        none⟩ := by
  have hb : input ≠ "back" := by
    rintro rfl
    rw [show pyInt? "back" = none from rfl] at hn
    cases hn
  have he : input ≠ "exit" := by
    rintro rfl
    rw [show pyInt? "exit" = none from rfl] at hn
    cases hn
  simp only [selectSiteStep, if_neg hb, if_neg he, hn]
  simp [hgt]

/-- Witness for the amended C6 at input "5" on a one-element list. -/
theorem claim_C6_amended_witness :
    selectSiteStep parkLsOne [] [] apiEmpty "KEY" "5" =
      ⟨.selectSiteAgain, ["[Error] Invalid input"], [], [], [], none⟩ :=
  claim_C6_amended_out_of_range parkLsOne [] [] apiEmpty "KEY" "5" 5 rfl
    (by decide)

/-- C7: the constructed site's phone is the telephone text with exactly
its first character removed (no digit special-casing), and the zipcode
is the postal-code text with all leading and trailing whitespace
removed and nothing else. -/
theorem claim_C7_detail_parsing (page : SitePage) :
    (∀ c rest, page.telephone.data = c :: rest →
      (get_site_instance page).phone.data = rest) ∧
    (∃ pre post, page.postalCode.data =
        pre ++ (get_site_instance page).zipcode.data ++ post ∧
      (∀ c ∈ pre, isPySpace c = true) ∧
      (∀ c ∈ post, isPySpace c = true) ∧
      (∀ c, (get_site_instance page).zipcode.data.head? = some c →
        isPySpace c = false) ∧
      (∀ c, (get_site_instance page).zipcode.data.getLast? = some c →
        isPySpace c = false)) := by
  constructor
  · intro c rest h
    show (pyTail page.telephone).data = rest
    rw [show (pyTail page.telephone).data = page.telephone.data.drop 1
      from rfl, h]
    rfl
  · exact pyStrip_spec page.postalCode

/-- Witness for C7: a telephone text starting with a digit loses exactly
that digit; a padded postal code is stripped. -/
theorem claim_C7_witness :
    (get_site_instance pageHoughton).phone.data = "06 482-0984".data ∧
    (get_site_instance pageHoughton).zipcode = "49931" :=
  ⟨(claim_C7_detail_parsing pageHoughton).1 '9' "06 482-0984".data rfl,
    rfl⟩

/-- C8: any input other than "back"/"exit" that `int()` cannot parse
crashes the session with an uncaught `ValueError` instead of
re-prompting. -/
theorem claim_C8_nonnumeric_crash (park_ls : List NationalSite)
    (nearCache : List (String × Json)) (fs : FS) (api : String → Json)
    (apiKey : String) (input : String)
    (hb : input ≠ "back") (he : input ≠ "exit")
    (hn : pyInt? input = none) :
    selectSiteStep park_ls nearCache fs api apiKey input =
      ⟨.crashed "ValueError", [], nearCache, fs, [], none⟩ := by
  simp only [selectSiteStep, if_neg hb, if_neg he, hn]

/-- Witness for C8 at input "hello". -/
theorem claim_C8_witness :
    selectSiteStep parkLsOne [] [] apiEmpty "KEY" "hello" =
      ⟨.crashed "ValueError", [], [], [], [], none⟩ :=
  claim_C8_nonnumeric_crash parkLsOne [] [] apiEmpty "KEY" "hello"
    (by decide) (by decide) rfl

/-- C9 counterexample: on a one-element list, input "-1" lies in the
claimed tolerated range -length..-1, but the session crashes with an
uncaught IndexError instead of selecting a site counted from the end. -/
theorem claim_C9_counterexample :
    pyInt? "-1" = some (-1) ∧
    -(parkLsOne.length : Int) ≤ -1 ∧ (-1 : Int) ≤ -1 ∧
    (selectSiteStep parkLsOne [] [] apiEmpty "KEY" "-1").phase =
      NextPhase.crashed "IndexError" ∧
    (selectSiteStep parkLsOne [] [] apiEmpty "KEY" "-1").fetchedSite =
      none :=
  ⟨rfl, by decide, by decide, rfl, rfl⟩

/-- C9 (amended): numeric input 0 and negative inputs down to
-(length-1) pass the range check and select the site at Python index
`k-1`, counted from the end of the list (0 selects the last site); the
selected site is handed to the nearby fetch.  Input -length and below
instead raises IndexError. -/
theorem claim_C9_amended_from_end (park_ls : List NationalSite)
    (nearCache : List (String × Json)) (fs : FS) (api : String → Json)
    (apiKey : String) (input : String) (k : Int)
    (hne : park_ls ≠ [])
    (hk : pyInt? input = some k)
    (hlow : 1 - (park_ls.length : Int) ≤ k) (hhi : k ≤ 0) :
    ∃ site,
      pyIndex park_ls (k - 1) = some site ∧
      park_ls.get? (park_ls.length - (1 - k).toNat) = some site ∧
      (selectSiteStep park_ls nearCache fs api apiKey input).fetchedSite =
        some site := by
  have hb : input ≠ "back" := by
    rintro rfl
    rw [show pyInt? "back" = none from rfl] at hk
    cases hk
  have he : input ≠ "exit" := by
    rintro rfl
    rw [show pyInt? "exit" = none from rfl] at hk
    cases hk
  have hlen : 1 ≤ park_ls.length := List.length_pos.mpr hne
  have hidx : park_ls.length - (1 - k).toNat < park_ls.length := by omega
  have hget : park_ls.get? (park_ls.length - (1 - k).toNat) =
      some (park_ls.get ⟨park_ls.length - (1 - k).toNat, hidx⟩) :=
    List.get?_eq_get hidx
  have hpy : pyIndex park_ls (k - 1) =
      park_ls.get? (park_ls.length - (1 - k).toNat) := by
    unfold pyIndex
    rw [if_neg (by omega), if_pos (by omega)]
    congr 1
    omega
  refine ⟨park_ls.get ⟨park_ls.length - (1 - k).toNat, hidx⟩, ?_, hget, ?_⟩
  · rw [hpy, hget]
  · simp only [selectSiteStep, if_neg hb, if_neg he, hk]
    rw [if_neg (by omega : ¬((park_ls.length : Int) < k))]
    rw [hpy, hget]
    dsimp only
    split <;> rfl

/-- Witness for the amended C9: on a two-element list, "0" selects the
last site. -/
theorem claim_C9_amended_witness :
    ∃ site,
      pyIndex parkLsTwo ((0 : Int) - 1) = some site ∧
      parkLsTwo.get? (parkLsTwo.length - ((1 : Int) - 0).toNat) =
        some site ∧
      (selectSiteStep parkLsTwo [] [] apiEmpty "KEY" "0").fetchedSite =
        some site :=
  claim_C9_amended_from_end parkLsTwo [] [] apiEmpty "KEY" "0" 0
    (by decide) rfl (by decide) (by decide)

/-- C10: after any call of `get_nearby_places`, hit or miss, the nearby
cache holds the key `site.info()` and the returned value is exactly the
entry stored under that key. -/
theorem claim_C10_nearby_cache_invariant
    (nearCache : List (String × Json)) (fs : FS) (api : String → Json)
    (apiKey : String) (site : NationalSite) :
    assocLookup
        (get_nearby_places nearCache fs api apiKey site).nearCache
        site.info =
      some (get_nearby_places nearCache fs api apiKey site).places := by
  unfold get_nearby_places
  cases hhit : assocLookup nearCache site.info with
  | some v => simp [hhit]
  | none =>
    simp only [hhit]
    rw [assocLookup_insert_self]
    simp
